import Mathlib

/-!
Shallow embedding of the pommel synthesis core (`src/lib.rs`).

Modelling conventions:
* `Duration`/`Period` values (Rust `std::time::Duration`) are modelled as
  natural numbers of nanoseconds, saturating at the largest representable
  duration `MAX_NANOS`.
* `f64` values are modelled as exact rationals.  The two transcendental
  operations the code uses (`f64::sin` together with the constant `TAU`,
  and `0.5f64.powf`) are abstracted into a parameter structure
  `TranscOps`; no claim under scrutiny depends on their values.
* Rust methods that mutate `self` are modelled as functions returning the
  updated value alongside their result.
* `HashMap` lookup (`SampleBank`) is modelled as a partial function.
-/

namespace Pommel

/-- Nanoseconds per second (`time::NANOS_PER_SEC`). -/
def NANOS_PER_SEC : ℕ := 1000000000

/-- The largest representable `Duration` (`Duration::MAX`), in nanoseconds:
`u64::MAX` whole seconds plus `10^9 - 1` subsecond nanoseconds. -/
def MAX_NANOS : ℕ := (2 ^ 64 - 1) * NANOS_PER_SEC + (NANOS_PER_SEC - 1)

/-- `Duration::saturating_add`: addition capped at `Duration::MAX`. -/
def satAdd (a b : ℕ) : ℕ := min (a + b) MAX_NANOS

/-- `Duration::as_secs_f64`: nanoseconds to seconds.  The float conversion
is modelled as exact rational division. -/
def asSecsQ (n : ℕ) : ℚ := (n : ℚ) / (NANOS_PER_SEC : ℚ)

/-- `Duration::as_secs`: the whole-seconds part. -/
def asSecsNat (n : ℕ) : ℕ := n / NANOS_PER_SEC

/-- `Duration::from_secs_f64` / `Duration::try_from_secs_f64`: seconds to
nanoseconds, rounded to the nearest nanosecond.  Values beyond
`Duration::MAX` are modelled as saturating to it (the `try_from` call site
maps the error case to `Duration::MAX`); negative inputs clamp to zero
(call sites only pass non-negative values). -/
def fromSecsF64 (q : ℚ) : ℕ := min (round (q * (NANOS_PER_SEC : ℚ))).toNat MAX_NANOS

/-- `time::wrap_duration`: total nanoseconds modulo `max`.  (Rust panics on
`max = 0`, which the spec classifies as caller error; the model is only
consulted with `max > 0` by the claims.) -/
def wrap_duration (d max : ℕ) : ℕ := d % max

/-- `time::duration_saturating_mul_f64`: negative scalars clamp to zero,
otherwise multiply the duration (in seconds) by the scalar, saturating at
`Duration::MAX`. -/
def duration_saturating_mul_f64 (lhs : ℕ) (rhs : ℚ) : ℕ :=
  if rhs < 0 then 0 else fromSecsF64 (rhs * asSecsQ lhs)

/-- `f64::rem_euclid`. -/
def remEuclid (a b : ℚ) : ℚ := a - b * ⌊a / b⌋

/-- The transcendental `f64` operations used by the code, kept abstract:
the constant `TAU`, `f64::sin`, and `0.5f64.powf`. -/
structure TranscOps where
  tau : ℚ
  sin : ℚ → ℚ
  halfPow : ℚ → ℚ

/-- `SampleID` (`u64` key). -/
abbrev SampleID := ℕ

/-- A PCM clip (`Sample`). -/
structure Sample where
  samples_per_period : ℚ
  loop_point : ℕ
  loop_duration : ℕ
  pcm_data : List ℚ

/-- The loop handling step of `Sample::get` (lines 74-79): periods before
`loop_point` pass through, later ones wrap into the loop window. -/
def Sample.loopAdjust (s : Sample) (period : ℕ) : ℕ :=
  if period < s.loop_point then period
  else satAdd (wrap_duration (period - s.loop_point) s.loop_duration) s.loop_point

/-- The index computation of `Sample::get` (lines 80-81). -/
def Sample.sampleIndex (s : Sample) (period : ℕ) : ℕ :=
  asSecsNat (duration_saturating_mul_f64 period s.samples_per_period)

/-- The tail of `Sample::get` after the phase offset has been applied:
loop-wrap the period, convert it to an index, and read the PCM data with
out-of-range reads yielding 0. -/
def Sample.getAdjusted (s : Sample) (period : ℕ) : ℚ :=
  s.pcm_data.getD (s.sampleIndex (s.loopAdjust period)) 0

/-- `Sample::get`. -/
def Sample.get (s : Sample) (period : ℕ) (phase_offset : ℚ) : ℚ :=
  if phase_offset < 0 then
    if period < fromSecsF64 (-phase_offset) then 0
    else s.getAdjusted (period - fromSecsF64 (-phase_offset))
  else s.getAdjusted (satAdd period (fromSecsF64 phase_offset))

/-- `SampleBank`: a `HashMap` from sample ids to samples, modelled as a
partial function. -/
structure SampleBank where
  samples : SampleID → Option Sample

/-- `Waveform`. -/
inductive Waveform where
  | Sine
  | Pulse (duty_cycle : ℚ)
  | Triangle
  | Sawtooth
  | InvertedSawtooth
  | PCM (sample_id : SampleID)
  | Constant (value : ℚ)
  | Thin (base : Waveform) (waveform_active_percent : ℚ)
  | Cut (base : Waveform) (waveform_active_percent : ℚ)
  | Absolute (base : Waveform)

/-- `Waveform::sample`. -/
def Waveform.sample (fops : TranscOps) (w : Waveform) (samples : SampleBank)
    (period : ℕ) (phase_offset : ℚ) : ℚ :=
  let monotonic_period := period
  let p := period % NANOS_PER_SEC
  let phase := remEuclid (asSecsQ p + remEuclid phase_offset 1) 1
  match w with
  | .Sine => fops.sin (phase * fops.tau)
  | .Pulse duty_cycle => if duty_cycle < phase then 1 else -1
  | .Triangle => if phase < 1/2 then phase * 4 - 1 else 3 - phase * 4
  | .Sawtooth => phase * 2 - 1
  | .InvertedSawtooth => phase * (-2) + 1
  | .PCM sample_id =>
    match samples.samples sample_id with
    | none => 0
    | some s => s.get monotonic_period phase_offset
  | .Constant value => value
  | .Thin base waveform_active_percent =>
    if waveform_active_percent < phase then 0
    else Waveform.sample fops base samples
      (fromSecsF64 (phase / waveform_active_percent)) phase_offset
  | .Cut base waveform_active_percent =>
    if waveform_active_percent < phase then 0
    else Waveform.sample fops base samples p phase_offset
  | .Absolute base => |Waveform.sample fops base samples p phase_offset|

/-- `Envelope`. -/
structure Envelope where
  attack_time : ℕ
  halving_rate : ℚ
  release_time : ℕ

/-- `Envelope::sample_volume`.  The early `return None` of the source is
modelled by the intermediate option `rm?`. -/
def Envelope.sample_volume (fops : TranscOps) (e : Envelope) (note_time : ℕ)
    (stop_point : Option ℕ) : Option ℚ :=
  let rm? : Option ℚ :=
    match stop_point with
    | some sp =>
      if satAdd sp e.release_time < note_time then none
      else some (1 - asSecsQ (note_time - sp) / asSecsQ e.release_time)
    | none => some 1
  match rm? with
  | none => none
  | some release_multiplier =>
    if note_time < e.attack_time then
      some (asSecsQ note_time / asSecsQ e.attack_time * release_multiplier)
    else
      some (fops.halfPow (asSecsQ (note_time - e.attack_time) * e.halving_rate)
        * release_multiplier)

/-- `OperatorModifiers`. -/
structure OperatorModifiers where
  frequency_multiplier : ℚ
  volume_multiplier : ℚ
  constant_phase_offset : ℚ

/-- `Operator`. -/
structure Operator where
  waveform : Waveform
  envelope : Envelope
  modifiers : OperatorModifiers
  start_time : Option (Option ℕ)
  stop_point : Option ℕ
  frequency : ℚ
  peak_volume : ℚ
  last_global_time : Option ℕ
  current_waveform_period : ℕ

/-- `Operator::sample` (the `Pom` impl), returning the result together with
the updated operator. -/
def Operator.sample (fops : TranscOps) (self : Operator) (data : SampleBank)
    (global_time : ℕ) (phase_offset : ℚ) : Option ℚ × Operator :=
  let delta_time := global_time - (self.last_global_time.getD global_time)
  let self1 := { self with last_global_time := some global_time }
  match self1.start_time with
  | none => (none, self1)
  | some st =>
    let start_time := st.getD global_time
    let self2 :=
      match st with
      | some _ => self1
      | none => { self1 with start_time := some (some global_time) }
    if global_time < start_time then (none, self2)
    else
      let note_time := global_time - start_time
      match self2.envelope.sample_volume fops note_time self2.stop_point with
      | none => (none, self2)
      | some envelope_multiplier =>
        let advanced := satAdd self2.current_waveform_period
          (duration_saturating_mul_f64 delta_time self2.frequency)
        let self3 := { self2 with current_waveform_period := advanced }
        (some (Waveform.sample fops self3.waveform data self3.current_waveform_period
            (phase_offset + self3.modifiers.constant_phase_offset)
          * envelope_multiplier * self3.peak_volume), self3)

/-- `Operator::play`. -/
def Operator.play (self : Operator) (frequency volume : ℚ) : Operator :=
  { self with
    peak_volume := volume * self.modifiers.volume_multiplier,
    frequency := frequency * self.modifiers.frequency_multiplier,
    start_time := some self.last_global_time,
    stop_point := none }

/-- `Operator::release`. -/
def Operator.release (self : Operator) : Operator :=
  { self with stop_point := some (self.stop_point.getD (self.last_global_time.getD 0)) }

/-- `Operator::cut`. -/
def Operator.cut (self : Operator) : Operator :=
  { self with start_time := none, stop_point := none }

/-- `CombinatorType`. -/
inductive CombinatorType where
  | Modulate
  | Sum

/-- `Combinator<Data>`: children are kept abstract (`dyn Pom<Data>`), so
the child type `σ` and its sampling function are parameters. -/
structure Combinator (σ : Type) where
  synths : List σ
  ty : CombinatorType

/-- The `Modulate` loop of `Combinator::sample`: thread the carry through
the children in order, defaulting a `None` carry to 0 before handing it to
the next child. -/
def modulateFold {σ : Type} (smp : σ → ℚ → Option ℚ × σ) :
    List σ → Option ℚ → Option ℚ × List σ
  | [], carry => (carry, [])
  | s :: rest, carry =>
    let r := smp s (carry.getD 0)
    let r2 := modulateFold smp rest r.1
    (r2.1, r.2 :: r2.2)

/-- The `Sum` loop of `Combinator::sample`: sample every child with the
same phase offset, collecting the values (`None` as 0) and updated
children. -/
def sumMap {σ : Type} (smp : σ → ℚ → Option ℚ × σ) :
    List σ → ℚ → List ℚ × List σ
  | [], _ => ([], [])
  | s :: rest, po =>
    let r := smp s po
    let r2 := sumMap smp rest po
    ((r.1.getD 0) :: r2.1, r.2 :: r2.2)

/-- `Combinator::sample`, parametric in the children's sampling function
(the dynamic dispatch of `dyn Pom<Data>`). -/
def Combinator.sample {σ : Type} (smp : σ → SampleBank → ℕ → ℚ → Option ℚ × σ)
    (c : Combinator σ) (data : SampleBank) (global_time : ℕ) (phase_offset : ℚ) :
    Option ℚ × Combinator σ :=
  match c.ty with
  | .Modulate =>
    let r := modulateFold (fun s po => smp s data global_time po) c.synths (some phase_offset)
    (r.1, { c with synths := r.2 })
  | .Sum =>
    let r := sumMap (fun s po => smp s data global_time po) c.synths phase_offset
    (some r.1.sum, { c with synths := r.2 })

/-- `StackInstruction`. -/
inductive StackInstruction where
  | Constant (value : ℚ)
  | InputPhaseOffset
  | Sample (op : ℕ)
  | Add
  | Dupe

/-- `Stacker`. -/
structure Stacker where
  operators : List Operator
  instructions : List StackInstruction

/-- `Stacker::chain`: one `InputPhaseOffset`, then `Sample(i)` for `i`
from `operators.len() - 1` down to `0`. -/
def Stacker.chain (operators : List Operator) : Stacker :=
  { operators := operators,
    instructions :=
      .InputPhaseOffset :: (List.range operators.length).reverse.map .Sample }

/-- `Stacker::add`: for an empty operator list a single `InputPhaseOffset`,
otherwise `Constant(0), Sample(i), Add` for each `i` in order. -/
def Stacker.add (operators : List Operator) : Stacker :=
  { operators := operators,
    instructions :=
      if operators.isEmpty then [.InputPhaseOffset]
      else ((List.range operators.length).map
        (fun i => [StackInstruction.Constant 0, .Sample i, .Add])).flatten }

/-- The instruction loop of `Stacker::sample`.  The stack grows at the
head; `Sample` with an out-of-range operator index pushes 0 and halts
execution of the remaining instructions. -/
def stackerRun (fops : TranscOps) (data : SampleBank) (global_time : ℕ) (input : ℚ) :
    List StackInstruction → List ℚ → List Operator → List ℚ × List Operator
  | [], stack, operators => (stack, operators)
  | instruction :: rest, stack, operators =>
    match instruction with
    | .Constant value => stackerRun fops data global_time input rest (value :: stack) operators
    | .InputPhaseOffset => stackerRun fops data global_time input rest (input :: stack) operators
    | .Sample i =>
      let po := stack.headD 0
      match operators.get? i with
      | none => ((0 : ℚ) :: stack.tail, operators)
      | some op =>
        let r := Operator.sample fops op data global_time po
        stackerRun fops data global_time input rest
          ((r.1.getD 0) :: stack.tail) (operators.set i r.2)
    | .Add =>
      stackerRun fops data global_time input rest
        ((stack.headD 0 + stack.tail.headD 0) :: stack.tail.tail) operators
    | .Dupe => stackerRun fops data global_time input rest (stack.headD 0 :: stack) operators

/-- `Stacker::sample` (the `Pom` impl): run the instructions over an empty
stack and return the top of the final stack, `None` when it is empty. -/
def Stacker.sample (fops : TranscOps) (s : Stacker) (data : SampleBank)
    (global_time : ℕ) (phase_offset : ℚ) : Option ℚ × Stacker :=
  let r := stackerRun fops data global_time phase_offset s.instructions [] s.operators
  (r.1.head?, { s with operators := r.2 })

/-- The envelope volume as the specification describes it: `None` iff the
stop point is present and `note_time` exceeds `stop_point + release_time`
(saturating add); otherwise the release multiplier
(`1 - (note_time - stop_point)/release_time` when stopped, else `1`)
times the attack/decay factor (`note_time/attack_time` during attack,
`0.5^((note_time - attack_time) * halving_rate)` after). -/
def envelopeVolumeSpec (fops : TranscOps) (e : Envelope) (note_time : ℕ)
    (stop_point : Option ℕ) : Option ℚ :=
  let factor : ℚ :=
    if note_time < e.attack_time then asSecsQ note_time / asSecsQ e.attack_time
    else fops.halfPow (asSecsQ (note_time - e.attack_time) * e.halving_rate)
  match stop_point with
  | some sp =>
    if satAdd sp e.release_time < note_time then none
    else some ((1 - asSecsQ (note_time - sp) / asSecsQ e.release_time) * factor)
  | none => some (1 * factor)

/-- The stack evolution of the `add` instruction sequence: each operator is
sampled at phase offset 0 and its value (plus the previous stack top, with
an empty stack read as 0) replaces the top of the stack. -/
def addAccum (fops : TranscOps) (data : SampleBank) (t : ℕ) :
    List Operator → List ℚ → List ℚ
  | [], S => S
  | o :: rest, S =>
    addAccum fops data t rest
      ((((Operator.sample fops o data t 0).1).getD 0 + S.headD 0) :: S.tail)

/-- A concrete instantiation of the abstract transcendental operations,
used for evaluating the model at concrete inputs (the runs below never
depend on `sin`/`powf` values). -/
def unitFops : TranscOps := ⟨0, fun _ => 0, fun _ => 0⟩

/-- An empty sample bank. -/
def emptyBank : SampleBank := ⟨fun _ => none⟩

/-- A linear-attack-only test envelope: two-second attack, no decay,
instant release. -/
def testEnvelope : Envelope := ⟨2 * NANOS_PER_SEC, 0, 0⟩

/-- Identity modifiers. -/
def testModifiers : OperatorModifiers := ⟨1, 1, 0⟩

/-- A playing operator producing the constant 2, started at time 0. -/
def opA : Operator := ⟨.Constant 2, testEnvelope, testModifiers, some (some 0), none, 0, 1, some 0, 0⟩

/-- A playing operator producing the constant 4, started at time 0. -/
def opB : Operator := ⟨.Constant 4, testEnvelope, testModifiers, some (some 0), none, 0, 1, some 0, 0⟩

/-- A playing sawtooth operator, started at time 0: phase-offset
sensitive. -/
def opSaw : Operator := ⟨.Sawtooth, testEnvelope, testModifiers, some (some 0), none, 0, 1, some 0, 0⟩

/-- An off operator that has already been sampled (its last seen global
time is 5). -/
def opSeen : Operator := ⟨.Sine, ⟨0, 0, 0⟩, testModifiers, none, none, 0, 0, some 5, 0⟩

/-- An armed operator (`start_time` present but unset). -/
def opArmed : Operator := ⟨.Sine, ⟨0, 0, 0⟩, testModifiers, some none, none, 0, 0, none, 0⟩

/-- A started operator whose note has already fully ended (released at 0
with a zero-length release). -/
def opEnded : Operator := ⟨.Sine, ⟨0, 0, 0⟩, testModifiers, some (some 0), some 0, 0, 1, some 0, 0⟩

/-- A PCM sample with no data, for exercising out-of-range reads. -/
def pcmEmpty : Sample := ⟨0, 0, 1, []⟩

/-- A PCM sample with a two-nanosecond loop starting at 0. -/
def pcmLoop : Sample := ⟨0, 0, 2, [5]⟩

end Pommel

namespace Pommel

/-- C3: `Operator::play` indeed sets `peak_volume`, `frequency` and clears
`stop_point` as claimed, but it sets `start_time` to
`Some(last_global_time)`: an operator that has been sampled before (here
at time 5) ends up Started at that time, not Armed (`start_time` present
but unset), refuting the claim that `play` puts the operator in the Armed
state from any state. -/
theorem c3_counterexample :
    (Operator.play opSeen 1 1).start_time = some (some 5) ∧
      some (some 5) ≠ (some none : Option (Option ℕ)) := by
  constructor
  · rfl
  · simp

/-- C3 (amended): `play(frequency, volume)` sets
`peak_volume = volume * volume_multiplier`,
`frequency = frequency * frequency_multiplier`, clears `stop_point`, and
sets `start_time` to `Some(last_global_time)` — which is the Armed state
exactly when the operator has never been sampled; and a `sample` call on
an operator in the Armed state captures its own `global_time` argument as
the start timestamp (Started state). -/
theorem c3_play_sets_start_from_last_seen :
    ∀ (op : Operator) (f v : ℚ),
      Operator.play op f v =
        { op with
          peak_volume := v * op.modifiers.volume_multiplier,
          frequency := f * op.modifiers.frequency_multiplier,
          start_time := some op.last_global_time,
          stop_point := none }
    ∧ ∀ (fops : TranscOps) (op2 : Operator) (data : SampleBank) (t : ℕ) (p : ℚ),
        op2.start_time = some none →
        ((Operator.sample fops op2 data t p).2).start_time = some (some t) := by
  intro op f v
  refine ⟨rfl, ?_⟩
  intro fops op2 data t p h
  unfold Operator.sample
  simp only [h]
  split
  · rfl
  · split <;> rfl

/-- C3 witness: a concrete armed operator sampled at time 7 becomes
Started at 7. -/
theorem c3_witness :
    ((Operator.sample unitFops opArmed emptyBank 7 0).2).start_time = some (some 7) :=
  (c3_play_sets_start_from_last_seen opArmed 1 1).2 unitFops opArmed emptyBank 7 0 rfl

/-- C5: `Envelope::sample_volume` equals the claimed formula, and returns
`None` exactly when the stop point is present and `note_time` exceeds
`stop_point + release_time` (saturating add). -/
theorem c5_sample_volume_formula :
    ∀ (fops : TranscOps) (e : Envelope) (nt : ℕ) (sp : Option ℕ),
      Envelope.sample_volume fops e nt sp = envelopeVolumeSpec fops e nt sp
    ∧ (Envelope.sample_volume fops e nt sp = none ↔
        ∃ s, sp = some s ∧ satAdd s e.release_time < nt) := by
  intro fops e nt sp
  cases sp with
  | none =>
    constructor
    · simp only [Envelope.sample_volume, envelopeVolumeSpec]
      split <;> simp [mul_comm]
    · simp only [Envelope.sample_volume]
      constructor
      · intro h
        split at h <;> simp_all
      · rintro ⟨s, hs, _⟩
        exact absurd hs (by simp)
  | some s =>
    rcases lt_or_ge (satAdd s e.release_time) nt with h | h
    · constructor
      · simp only [Envelope.sample_volume, envelopeVolumeSpec, if_pos h]
      · simp only [Envelope.sample_volume, if_pos h]
        constructor
        · intro _
          exact ⟨s, rfl, h⟩
        · intro _
          trivial
    · constructor
      · simp only [Envelope.sample_volume, envelopeVolumeSpec, if_neg (not_lt.mpr h)]
        split <;> simp [mul_comm]
      · simp only [Envelope.sample_volume, if_neg (not_lt.mpr h)]
        constructor
        · intro hh
          split at hh <;> simp_all
        · rintro ⟨s2, hs2, hlt⟩
          injection hs2 with hs2
          subst hs2
          exact absurd hlt (not_lt.mpr h)

/-- C7: when `Operator::sample` returns `None` because the envelope
signalled the end of the note, the only field that changes is
`last_global_time`; `start_time`, `stop_point`, `frequency`,
`peak_volume` and `current_waveform_period` are untouched (the operator
stays Started), and only `cut` clears `start_time`/`stop_point` back to
Off. -/
theorem c7_envelope_end_preserves_state :
    ∀ (fops : TranscOps) (op : Operator) (data : SampleBank) (t : ℕ) (p : ℚ) (st : ℕ),
      op.start_time = some (some st) → st ≤ t →
      Envelope.sample_volume fops op.envelope (t - st) op.stop_point = none →
      Operator.sample fops op data t p = (none, { op with last_global_time := some t })
    ∧ ∀ (op2 : Operator),
        Operator.cut op2 = { op2 with start_time := none, stop_point := none } := by
  intro fops op data t p st hst hle henv
  refine ⟨?_, fun op2 => rfl⟩
  unfold Operator.sample
  simp only [hst, Option.getD_some]
  rw [if_neg (not_lt.mpr hle)]
  simp only [henv]

/-- C7 witness: a concrete ended operator sampled at time 1 returns `None`
and keeps all state except `last_global_time`. -/
theorem c7_witness :
    Operator.sample unitFops opEnded emptyBank 1 0 =
      (none, { opEnded with last_global_time := some 1 }) ∧
    ∀ (op2 : Operator),
      Operator.cut op2 = { op2 with start_time := none, stop_point := none } :=
  c7_envelope_end_preserves_state unitFops opEnded emptyBank 1 0 0 rfl (by omega)
    (by simp [Envelope.sample_volume, opEnded, satAdd, MAX_NANOS, NANOS_PER_SEC])

/-- The modulate carry threads through an appended list by running the
first part and feeding its carry into the second. -/
theorem modulateFold_append {σ : Type} (smp : σ → ℚ → Option ℚ × σ)
    (l1 l2 : List σ) (c : Option ℚ) :
    modulateFold smp (l1 ++ l2) c =
      ((modulateFold smp l2 (modulateFold smp l1 c).1).1,
       (modulateFold smp l1 c).2 ++ (modulateFold smp l2 (modulateFold smp l1 c).1).2) := by
  induction l1 generalizing c with
  | nil => simp [modulateFold]
  | cons s rest ih => simp [modulateFold, ih]

/-- C4: a `Modulate` combinator over `cs ++ [c]` returns exactly the last
child's result, sampled with the carry threaded through the earlier
children (each `None` output substituted by 0 before being passed on, and
the caller's phase offset fed to the first child); in particular the
combinator returns `None` iff the last child did. -/
theorem c4_modulate_returns_last :
    ∀ (σ : Type) (smp : σ → SampleBank → ℕ → ℚ → Option ℚ × σ) (data : SampleBank)
      (t : ℕ) (p : ℚ) (cs : List σ) (c : σ),
      (Combinator.sample smp (⟨cs ++ [c], .Modulate⟩ : Combinator σ) data t p).1 =
        (smp c data t
          (((modulateFold (fun s po => smp s data t po) cs (some p)).1).getD 0)).1
    ∧ ((Combinator.sample smp (⟨cs ++ [c], .Modulate⟩ : Combinator σ) data t p).1 = none ↔
        (smp c data t
          (((modulateFold (fun s po => smp s data t po) cs (some p)).1).getD 0)).1 = none) := by
  intro σ smp data t p cs c
  have h : (Combinator.sample smp (⟨cs ++ [c], .Modulate⟩ : Combinator σ) data t p).1 =
      (smp c data t
        (((modulateFold (fun s po => smp s data t po) cs (some p)).1).getD 0)).1 := by
    simp only [Combinator.sample, modulateFold_append, modulateFold]
  exact ⟨h, by rw [h]⟩

/-- The values collected by the `Sum` loop are each child's sample result
at the shared phase offset, `None` read as 0. -/
theorem sumMap_fst {σ : Type} (smp : σ → ℚ → Option ℚ × σ) (l : List σ) (po : ℚ) :
    (sumMap smp l po).1 = l.map (fun s => ((smp s po).1).getD 0) := by
  induction l with
  | nil => simp [sumMap]
  | cons s rest ih => simp [sumMap, ih]

/-- C6: a `Sum` combinator always returns `Some`, namely the arithmetic
sum of its children's results on the same inputs with `None` counted as 0;
for two child operators this is the sum of sampling each operator
independently from its starting state. -/
theorem c6_sum_total :
    ∀ (σ : Type) (smp : σ → SampleBank → ℕ → ℚ → Option ℚ × σ) (data : SampleBank)
      (t : ℕ) (p : ℚ) (l : List σ),
      (Combinator.sample smp (⟨l, .Sum⟩ : Combinator σ) data t p).1 =
        some ((l.map (fun s => ((smp s data t p).1).getD 0)).sum)
    ∧ ∀ (fops : TranscOps) (A B : Operator),
        (Combinator.sample (Operator.sample fops)
            (⟨[A, B], .Sum⟩ : Combinator Operator) data t p).1 =
          some (((Operator.sample fops A data t p).1).getD 0
            + ((Operator.sample fops B data t p).1).getD 0) := by
  intro σ smp data t p l
  constructor
  · simp only [Combinator.sample, sumMap_fst]
  · intro fops A B
    simp [Combinator.sample, sumMap]

/-- C10: neither `play` nor `cut` touches `current_waveform_period`; a
`sample` call advances it by `delta_time * frequency` (saturating) exactly
when it produces a value, and leaves it unchanged on every `None` path, so
a re-triggered note resumes from the previously accumulated phase. -/
theorem c10_period_only_advanced_by_sample :
    ∀ (fops : TranscOps) (op : Operator) (data : SampleBank) (t : ℕ) (p f v : ℚ),
      (Operator.play op f v).current_waveform_period = op.current_waveform_period
    ∧ (Operator.cut op).current_waveform_period = op.current_waveform_period
    ∧ ((Operator.sample fops op data t p).2).current_waveform_period =
        (match (Operator.sample fops op data t p).1 with
         | some _ => satAdd op.current_waveform_period
             (duration_saturating_mul_f64 (t - op.last_global_time.getD t) op.frequency)
         | none => op.current_waveform_period) := by
  intro fops op data t p f v
  refine ⟨rfl, rfl, ?_⟩
  rcases hst : op.start_time with _ | st
  · unfold Operator.sample
    simp only [hst]
  · rcases st with _ | s
    · unfold Operator.sample
      simp only [hst, Option.getD_none]
      rw [if_neg (lt_irrefl t)]
      rcases henv : Envelope.sample_volume fops op.envelope (t - t) op.stop_point with _ | em <;>
        simp only [henv]
    · unfold Operator.sample
      simp only [hst, Option.getD_some]
      rcases lt_or_ge t s with hts | hts
      · rw [if_pos hts]
      · rw [if_neg (not_lt.mpr hts)]
        rcases henv : Envelope.sample_volume fops op.envelope (t - s) op.stop_point with _ | em <;>
          simp only [henv]

/-- C8: `Sample::get` degrades silently: a negative phase offset whose
magnitude (as a Period) exceeds the period yields 0 immediately, and every
path on which the computed integer index falls outside the PCM data also
yields 0. -/
theorem c8_sample_get_degrades_silently :
    ∀ (s : Sample) (period : ℕ) (po : ℚ),
      (po < 0 → period < fromSecsF64 (-po) → Sample.get s period po = 0)
    ∧ (∀ p2 : ℕ, s.pcm_data.length ≤ s.sampleIndex (s.loopAdjust p2) →
        s.getAdjusted p2 = 0)
    ∧ (¬ po < 0 →
        s.pcm_data.length ≤ s.sampleIndex (s.loopAdjust (satAdd period (fromSecsF64 po))) →
        Sample.get s period po = 0)
    ∧ (po < 0 → fromSecsF64 (-po) ≤ period →
        s.pcm_data.length ≤ s.sampleIndex (s.loopAdjust (period - fromSecsF64 (-po))) →
        Sample.get s period po = 0) := by
  intro s period po
  have hadj : ∀ p2 : ℕ, s.pcm_data.length ≤ s.sampleIndex (s.loopAdjust p2) →
      s.getAdjusted p2 = 0 := by
    intro p2 h
    unfold Sample.getAdjusted
    exact List.getD_eq_default _ _ h
  refine ⟨?_, hadj, ?_, ?_⟩
  · intro hneg hlt
    unfold Sample.get
    rw [if_pos hneg, if_pos hlt]
  · intro hpos hlen
    unfold Sample.get
    rw [if_neg hpos]
    exact hadj _ hlen
  · intro hneg hge hlen
    unfold Sample.get
    rw [if_pos hneg, if_neg (not_lt.mpr hge)]
    exact hadj _ hlen

/-- C8 witness: concrete silent reads on an empty PCM clip, covering the
excessive-negative-offset return and all three out-of-range index paths. -/
theorem c8_witness :
    Sample.get pcmEmpty 0 (-1) = 0 ∧ pcmEmpty.getAdjusted 0 = 0 ∧
      Sample.get pcmEmpty 0 0 = 0 ∧ Sample.get pcmEmpty NANOS_PER_SEC (-1) = 0 := by
  have hf : fromSecsF64 (-(-1 : ℚ)) = NANOS_PER_SEC := by
    unfold fromSecsF64
    rw [show (-(-1 : ℚ)) * (NANOS_PER_SEC : ℚ) = ((NANOS_PER_SEC : ℤ) : ℚ) by
      norm_num [NANOS_PER_SEC]]
    rw [round_intCast]
    rw [Int.toNat_natCast]
    norm_num [NANOS_PER_SEC, MAX_NANOS]
  refine ⟨(c8_sample_get_degrades_silently pcmEmpty 0 (-1)).1 (by norm_num) ?_,
          (c8_sample_get_degrades_silently pcmEmpty 0 0).2.1 0 ?_,
          (c8_sample_get_degrades_silently pcmEmpty 0 0).2.2.1 (by norm_num) ?_,
          (c8_sample_get_degrades_silently pcmEmpty NANOS_PER_SEC (-1)).2.2.2
            (by norm_num) ?_ ?_⟩
  · rw [hf]
    norm_num [NANOS_PER_SEC]
  · simp [pcmEmpty]
  · simp [pcmEmpty]
  · rw [hf]
  · simp [pcmEmpty]

/-- Once past the loop point, the loop-wrapped lookup is periodic in the
loop duration. -/
theorem getAdjusted_periodic (s : Sample) (a : ℕ) (hld : 0 < s.loop_duration)
    (hlp : s.loop_point ≤ a) :
    s.getAdjusted a = s.getAdjusted (a + s.loop_duration) := by
  unfold Sample.getAdjusted Sample.loopAdjust wrap_duration
  rw [if_neg (not_lt.mpr hlp), if_neg (not_lt.mpr (le_trans hlp (Nat.le_add_right _ _)))]
  have h : a + s.loop_duration - s.loop_point = (a - s.loop_point) + s.loop_duration := by
    omega
  rw [h, Nat.add_mod_right]

/-- C9: for a positive loop duration and a fixed phase offset, whenever
the offset-adjusted period has reached the loop point (and no saturation
at `Duration::MAX` occurs), `Sample::get` at a period equals `Sample::get`
at that period plus the loop duration. -/
theorem c9_sample_get_periodic :
    ∀ (s : Sample) (period : ℕ) (po : ℚ),
      0 < s.loop_duration →
      (po < 0 → fromSecsF64 (-po) ≤ period ∧
        s.loop_point ≤ period - fromSecsF64 (-po)) →
      (¬ po < 0 → s.loop_point ≤ period + fromSecsF64 po ∧
        period + s.loop_duration + fromSecsF64 po ≤ MAX_NANOS) →
      Sample.get s period po = Sample.get s (period + s.loop_duration) po := by
  intro s period po hld hneg hpos
  by_cases hp : po < 0
  · obtain ⟨h1, h2⟩ := hneg hp
    unfold Sample.get
    rw [if_pos hp, if_pos hp, if_neg (not_lt.mpr h1),
        if_neg (not_lt.mpr (le_trans h1 (Nat.le_add_right _ _)))]
    have heq : period + s.loop_duration - fromSecsF64 (-po) =
        (period - fromSecsF64 (-po)) + s.loop_duration := by omega
    rw [heq]
    exact getAdjusted_periodic s _ hld h2
  · obtain ⟨h1, h2⟩ := hpos hp
    unfold Sample.get
    rw [if_neg hp, if_neg hp]
    have e1 : satAdd period (fromSecsF64 po) = period + fromSecsF64 po := by
      unfold satAdd
      omega
    have e2 : satAdd (period + s.loop_duration) (fromSecsF64 po) =
        (period + fromSecsF64 po) + s.loop_duration := by
      unfold satAdd
      omega
    rw [e1, e2]
    exact getAdjusted_periodic s _ hld h1

/-- C9 witness: a concrete looping clip read at periods 3 and 5 with a
2-nanosecond loop gives equal values. -/
theorem c9_witness : Sample.get pcmLoop 3 0 = Sample.get pcmLoop (3 + 2) 0 := by
  have h := c9_sample_get_periodic pcmLoop 3 0 (by norm_num [pcmLoop])
    (fun hcon => absurd hcon (by norm_num))
    (fun _ => by
      constructor
      · simp [pcmLoop]
      · norm_num [pcmLoop, fromSecsF64, MAX_NANOS, NANOS_PER_SEC])
  exact h

/-- Reading the element just after a prefix. -/
theorem get?_append_length {α : Type} (l1 : List α) (a : α) (l2 : List α) :
    (l1 ++ a :: l2).get? l1.length = some a := by
  induction l1 with
  | nil => rfl
  | cons x rest ih => simpa using ih

/-- Setting the element just after a prefix. -/
theorem set_append_length {α : Type} (l1 : List α) (a b : α) (l2 : List α) :
    (l1 ++ a :: l2).set l1.length b = l1 ++ b :: l2 := by
  induction l1 with
  | nil => rfl
  | cons x rest ih => simp [List.set, ih]

/-- Running the `chain` instruction tail (`Sample(n-1) … Sample(0)`) with a
carried value on top of the stack is the modulate fold over the reversed
operator list: each operator is sampled once, from its original state, in
descending index order. -/
theorem chainRun (fops : TranscOps) (data : SampleBank) (t : ℕ) (input : ℚ) :
    ∀ (os extra : List Operator) (stack : List ℚ) (c : Option ℚ),
      stackerRun fops data t input ((List.range os.length).reverse.map .Sample)
        (c.getD 0 :: stack) (os ++ extra) =
      (((modulateFold (fun op po => Operator.sample fops op data t po)
            os.reverse c).1.getD 0) :: stack,
        ((modulateFold (fun op po => Operator.sample fops op data t po)
            os.reverse c).2).reverse ++ extra) := by
  intro os
  induction os using List.reverseRecOn with
  | nil =>
    intro extra stack c
    simp [stackerRun, modulateFold]
  | append_singleton init o ih =>
    intro extra stack c
    have hlen : (init ++ [o]).length = init.length + 1 := by simp
    rw [hlen, List.range_succ, List.reverse_append, List.reverse_singleton,
      List.singleton_append, List.map_cons, List.append_assoc, List.singleton_append]
    rw [stackerRun]
    simp only [List.headD_cons, List.tail_cons, get?_append_length, set_append_length]
    rw [ih ((Operator.sample fops o data t (c.getD 0)).2 :: extra) stack
      (Operator.sample fops o data t (c.getD 0)).1]
    simp [modulateFold, List.reverse_append]

/-- C1 counterexample: two constant-valued playing operators `opA`
(value 1 after the envelope) and `opB` (value 2).  `chain([opA, opB])`
samples `opB` first and returns `opA`'s output (`Some 1`), while
`Combinator{Modulate,[opA, opB]}` samples `opA` first and returns `opB`'s
output (`Some 2`): the two are not behaviourally equivalent on identical
states and inputs. -/
theorem c1_counterexample :
    (Stacker.sample unitFops (Stacker.chain [opA, opB]) emptyBank NANOS_PER_SEC 0).1 ≠
      (Combinator.sample (Operator.sample unitFops)
        (⟨[opA, opB], .Modulate⟩ : Combinator Operator) emptyBank NANOS_PER_SEC 0).1 := by
  have hA : ∀ q : ℚ, (Operator.sample unitFops opA emptyBank NANOS_PER_SEC q).1 = some 1 := by
    intro q
    simp only [Operator.sample, opA, unitFops, emptyBank, testEnvelope, testModifiers,
      Envelope.sample_volume, Waveform.sample, NANOS_PER_SEC, satAdd, asSecsQ, asSecsNat,
      fromSecsF64, duration_saturating_mul_f64, remEuclid, MAX_NANOS]
    norm_num
  have hB : ∀ q : ℚ, (Operator.sample unitFops opB emptyBank NANOS_PER_SEC q).1 = some 2 := by
    intro q
    simp only [Operator.sample, opB, unitFops, emptyBank, testEnvelope, testModifiers,
      Envelope.sample_volume, Waveform.sample, NANOS_PER_SEC, satAdd, asSecsQ, asSecsNat,
      fromSecsF64, duration_saturating_mul_f64, remEuclid, MAX_NANOS]
    norm_num
  have hL : (Stacker.sample unitFops (Stacker.chain [opA, opB]) emptyBank NANOS_PER_SEC 0).1 =
      some 1 := by
    simp [Stacker.sample, Stacker.chain, stackerRun, List.range_succ, hA, hB]
  have hR : (Combinator.sample (Operator.sample unitFops)
      (⟨[opA, opB], .Modulate⟩ : Combinator Operator) emptyBank NANOS_PER_SEC 0).1 = some 2 := by
    simp [Combinator.sample, modulateFold, hA, hB]
  rw [hL, hR]
  simp

/-- C1 (amended): `Stacker::chain(ops)` is the `Modulate` combinator of
the REVERSED operator list, with the final `None` collapsed: its sample
always returns `Some` of the reversed-modulate result with `None` read as
0.  The first-listed operator is the carrier (sampled last) and the
last-listed operator receives the caller's phase offset. -/
theorem c1_chain_equals_reversed_modulate :
    ∀ (fops : TranscOps) (data : SampleBank) (t : ℕ) (p : ℚ) (os : List Operator),
      (Stacker.sample fops (Stacker.chain os) data t p).1 =
        some (((Combinator.sample (Operator.sample fops)
          (⟨os.reverse, .Modulate⟩ : Combinator Operator) data t p).1).getD 0) := by
  intro fops data t p os
  have h := chainRun fops data t p os [] [] (some p)
  simp only [List.append_nil, Option.getD_some] at h
  simp only [Stacker.sample, Stacker.chain, Combinator.sample]
  rw [stackerRun]
  rw [h]
  rfl

/-- Running the `add` instruction sequence (indices shifted past an
already-processed prefix) accumulates each operator's phase-0 sample into
the stack top and updates every operator once. -/
theorem addRun (fops : TranscOps) (data : SampleBank) (t : ℕ) (input : ℚ) :
    ∀ (os pre : List Operator) (S : List ℚ),
      stackerRun fops data t input
        (((List.range' pre.length os.length).map
          (fun i => [StackInstruction.Constant 0, .Sample i, .Add])).flatten) S (pre ++ os) =
      (addAccum fops data t os S,
        pre ++ os.map (fun o => (Operator.sample fops o data t 0).2)) := by
  intro os
  induction os with
  | nil =>
    intro pre S
    simp [stackerRun, addAccum]
  | cons o rest ih =>
    intro pre S
    rw [List.length_cons, List.range'_succ, List.map_cons, List.flatten_cons]
    rw [List.cons_append, List.cons_append, List.cons_append, List.nil_append]
    rw [stackerRun]
    rw [stackerRun]
    simp only [List.headD_cons, List.tail_cons, get?_append_length, set_append_length]
    rw [stackerRun]
    simp only [List.headD_cons, List.tail_cons]
    have hstep := ih (pre ++ [(Operator.sample fops o data t 0).2])
      ((((Operator.sample fops o data t 0).1).getD 0 + S.headD 0) :: S.tail)
    simp only [List.length_append, List.length_cons, List.length_nil, Nat.zero_add,
      List.append_assoc, List.singleton_append] at hstep
    rw [hstep]
    simp [addAccum]

/-- The accumulated stack of the `add` program over a non-empty operator
list is the sum of the phase-0 sample values on top of the incoming stack
remainder. -/
theorem addAccum_eq (fops : TranscOps) (data : SampleBank) (t : ℕ) :
    ∀ (os : List Operator) (S : List ℚ), os ≠ [] →
      addAccum fops data t os S =
        ((os.map (fun o => ((Operator.sample fops o data t 0).1).getD 0)).sum
          + S.headD 0) :: S.tail := by
  intro os
  induction os with
  | nil =>
    intro S h
    exact absurd rfl h
  | cons o rest ih =>
    intro S _
    cases rest with
    | nil =>
      simp [addAccum]
    | cons b l =>
      rw [addAccum, ih _ (by simp)]
      simp only [List.headD_cons, List.tail_cons, List.map_cons, List.sum_cons]
      rw [List.cons.injEq]
      refine ⟨by ring, rfl⟩

/-- C2 counterexample: `opSaw` is a playing sawtooth operator, sampled at
one second with phase offset 1/4.  `Stacker::add([opSaw])` samples it at
phase offset 0 (the pushed `Constant(0)`), giving `Some (-1/2)`, while
`Combinator{Sum,[opSaw]}` passes the caller's offset 1/4 through, giving
`Some (-1/4)`: the two are not equivalent at non-zero phase offsets. -/
theorem c2_counterexample :
    (Stacker.sample unitFops (Stacker.add [opSaw]) emptyBank NANOS_PER_SEC (1/4)).1 ≠
      (Combinator.sample (Operator.sample unitFops)
        (⟨[opSaw], .Sum⟩ : Combinator Operator) emptyBank NANOS_PER_SEC (1/4)).1 := by
  have hS : ∀ q : ℚ, (Operator.sample unitFops opSaw emptyBank NANOS_PER_SEC q).1 =
      some ((remEuclid (remEuclid q 1) 1 * 2 - 1) * (1/2)) := by
    intro q
    simp only [Operator.sample, opSaw, unitFops, emptyBank, testEnvelope, testModifiers,
      Envelope.sample_volume, Waveform.sample, NANOS_PER_SEC, satAdd, asSecsQ, asSecsNat,
      fromSecsF64, duration_saturating_mul_f64, MAX_NANOS]
    norm_num [remEuclid]
  have h0 : remEuclid (remEuclid 0 1) 1 = 0 := by norm_num [remEuclid]
  have hL : (Stacker.sample unitFops (Stacker.add [opSaw]) emptyBank NANOS_PER_SEC (1/4)).1 =
      some (-(1/2)) := by
    simp [Stacker.sample, Stacker.add, stackerRun, List.range_succ, hS, h0]
  have hR : (Combinator.sample (Operator.sample unitFops)
      (⟨[opSaw], .Sum⟩ : Combinator Operator) emptyBank NANOS_PER_SEC (1/4)).1 =
      some (-(1/4)) := by
    simp [Combinator.sample, sumMap, hS]
    norm_num [remEuclid]
  rw [hL, hR]
  simp

/-- C2 (amended): for a NON-EMPTY operator list, `Stacker::add(ops)`
samples like the `Sum` combinator of the same operators, but with every
operator sampled at phase offset 0 (the pushed `Constant(0)`) instead of
the caller's phase offset; for an empty operator list `add` returns the
caller's phase offset itself. -/
theorem c2_add_equals_sum_at_zero_phase :
    ∀ (fops : TranscOps) (data : SampleBank) (t : ℕ) (p : ℚ) (os : List Operator),
      (os ≠ [] →
        (Stacker.sample fops (Stacker.add os) data t p).1 =
          (Combinator.sample (Operator.sample fops)
            (⟨os, .Sum⟩ : Combinator Operator) data t 0).1)
    ∧ (Stacker.sample fops (Stacker.add []) data t p).1 = some p := by
  intro fops data t p os
  constructor
  · intro hne
    unfold Stacker.sample Stacker.add
    rw [if_neg (by simpa [List.isEmpty_iff] using hne)]
    rw [List.range_eq_range']
    have h := addRun fops data t p os [] []
    simp only [List.nil_append, List.length_nil] at h
    rw [h]
    rw [addAccum_eq fops data t os [] hne]
    simp [Combinator.sample, sumMap_fst]
  · rfl

/-- C2 witness: the amended equivalence evaluated for the singleton list
`[opA]` and the empty list. -/
theorem c2_witness :
    (Stacker.sample unitFops (Stacker.add [opA]) emptyBank 0 3).1 =
      (Combinator.sample (Operator.sample unitFops)
        (⟨[opA], .Sum⟩ : Combinator Operator) emptyBank 0 0).1 ∧
    (Stacker.sample unitFops (Stacker.add []) emptyBank 0 3).1 = some 3 :=
  ⟨(c2_add_equals_sum_at_zero_phase unitFops emptyBank 0 3 [opA]).1 (by simp),
   (c2_add_equals_sum_at_zero_phase unitFops emptyBank 0 3 []).2⟩

end Pommel
